import Mathlib

/-!
Verification development for the `sc` package of tunes.floppa.nl
(`lib/sc/init.go`): SoundCloud client-id discovery, TTL caches for
users/tracks/playlists, retrying HTTP transport, pagination, playlist
missing-track reconciliation, and tag-list parsing.

Strings are modelled as Lean `String` / `List Char`; time as `Nat`;
network effects (HTTP fetches, JSON decoding, regex extraction from
fetched bodies) as explicit oracle parameters. All definitions are
translated from `lib/sc/init.go` except the entity struct layouts,
whose Go declarations live in a file of the repository that is not in
`lib/sc/init.go`; those are modelled from the spec (see doc comments).
-/

set_option autoImplicit false

/-- `isPrefixL pat l` is true when `pat` is a prefix of `l`
(character-by-character comparison, as `bytes`/`strings` prefix tests do). -/
def isPrefixL : List Char → List Char → Bool
  | [], _ => true
  | _ :: _, [] => false
  | a :: as, b :: bs => (a == b) && isPrefixL as bs

/-- Embedding of Go `strings.Replace(s, old, new, 1)` (for nonempty `old`):
scan left to right, replace the first occurrence of `old` by `new`. -/
def replaceOnceL (old new : List Char) : List Char → List Char
  | [] => []
  | c :: rest =>
    if isPrefixL old (c :: rest) then new ++ (c :: rest).drop old.length
    else c :: replaceOnceL old new rest

/-- `containsL pat l`: some position of `l` starts an occurrence of `pat`
(Go `strings.Contains`). -/
def containsL (old : List Char) : List Char → Bool
  | [] => isPrefixL old []
  | c :: rest => isPrefixL old (c :: rest) || containsL old rest

/-- Number of positions of `l` at which `old` occurs. -/
def countOccL (old : List Char) : List Char → Nat
  | [] => 0
  | c :: rest => (if isPrefixL old (c :: rest) then 1 else 0) + countOccL old rest

/-- Split `l` at the first occurrence of `old`: returns the part before and
the part after that occurrence. -/
def splitFirstL (old : List Char) : List Char → Option (List Char × List Char)
  | [] => none
  | c :: rest =>
    if isPrefixL old (c :: rest) then some ([], (c :: rest).drop old.length)
    else
      match splitFirstL old rest with
      | some (a, b) => some (c :: a, b)
      | none => none

/-- The artwork size suffix the upstream serves: `"-large."`. -/
def largeL : List Char := ['-', 'l', 'a', 'r', 'g', 'e', '.']

/-- The fixed replacement suffix: `"-t200x200."`. -/
def t200L : List Char := ['-', 't', '2', '0', '0', 'x', '2', '0', '0', '.']

/-- The artwork-URL rewrite shared by `Track.Fix`, `User.Fix` and
`Playlist.Fix`: Go `strings.Replace(s, "-large.", "-t200x200.", 1)`. -/
def artworkRewrite (s : String) : String :=
  ⟨replaceOnceL largeL t200L s.data⟩

example : artworkRewrite "x/artwork-large.jpg" = "x/artwork-t200x200.jpg" := by decide
example : artworkRewrite "plain.jpg" = "plain.jpg" := by decide
example : artworkRewrite "-large.-large." = "-t200x200.-large." := by decide

theorem contains_t200_append (t : List Char) :
    containsL largeL (t200L ++ t) = containsL largeL t := rfl

theorem replaceOnceL_of_not_contains {old new l : List Char}
    (h : containsL old l = false) : replaceOnceL old new l = l := by
  induction l with
  | nil => rfl
  | cons c rest ih =>
    rw [containsL, Bool.or_eq_false_iff] at h
    rw [replaceOnceL, if_neg (by simp [h.1]), ih h.2]

theorem eq_append_drop_of_isPrefixL {old : List Char} :
    ∀ {l : List Char}, isPrefixL old l = true → l = old ++ l.drop old.length := by
  induction old with
  | nil => intro l _; simp
  | cons a as ih =>
    intro l h
    cases l with
    | nil => simp [isPrefixL] at h
    | cons b bs =>
      rw [isPrefixL, Bool.and_eq_true, beq_iff_eq] at h
      simpa [h.1] using ih h.2

theorem splitFirstL_eq {old l a b : List Char} (h : splitFirstL old l = some (a, b)) :
    l = a ++ old ++ b := by
  induction l generalizing a b with
  | nil => simp [splitFirstL] at h
  | cons c rest ih =>
    rw [splitFirstL] at h
    by_cases hp : isPrefixL old (c :: rest) = true
    · rw [if_pos hp] at h
      obtain ⟨rfl, rfl⟩ := by simpa using h
      simpa using eq_append_drop_of_isPrefixL hp
    · rw [if_neg hp] at h
      cases hs : splitFirstL old rest with
      | none => rw [hs] at h; simp at h
      | some ab =>
        obtain ⟨a2, b2⟩ := ab
        rw [hs] at h
        obtain ⟨rfl, rfl⟩ : c :: a2 = a ∧ b2 = b := by simpa using h
        simpa using ih hs

theorem replaceOnceL_of_splitFirstL {old new l a b : List Char}
    (h : splitFirstL old l = some (a, b)) :
    replaceOnceL old new l = a ++ new ++ b := by
  induction l generalizing a b with
  | nil => simp [splitFirstL] at h
  | cons c rest ih =>
    rw [splitFirstL] at h
    rw [replaceOnceL]
    by_cases hp : isPrefixL old (c :: rest) = true
    · rw [if_pos hp] at h
      obtain ⟨rfl, rfl⟩ := by simpa using h
      simp [hp]
    · rw [if_neg hp] at h
      rw [if_neg hp]
      cases hs : splitFirstL old rest with
      | none => rw [hs] at h; simp at h
      | some ab =>
        obtain ⟨a2, b2⟩ := ab
        rw [hs] at h
        obtain ⟨rfl, rfl⟩ : c :: a2 = a ∧ b2 = b := by simpa using h
        simp [ih hs]

theorem replaceOnceL_of_splitFirstL_none {old new l : List Char}
    (h : splitFirstL old l = none) : replaceOnceL old new l = l := by
  induction l with
  | nil => rfl
  | cons c rest ih =>
    rw [splitFirstL] at h
    by_cases hp : isPrefixL old (c :: rest) = true
    · rw [if_pos hp] at h; simp at h
    · rw [if_neg hp] at h
      rw [replaceOnceL, if_neg hp]
      cases hs : splitFirstL old rest with
      | none => rw [ih hs]
      | some ab => rw [hs] at h; simp at h

theorem containsL_eq_false_of_countOccL {old l : List Char} (hne : old ≠ [])
    (h : countOccL old l = 0) : containsL old l = false := by
  induction l with
  | nil =>
    rw [containsL]
    cases old with
    | nil => exact absurd rfl hne
    | cons a as => rfl
  | cons c rest ih =>
    rw [countOccL] at h
    rw [containsL, Bool.or_eq_false_iff]
    by_cases hp : isPrefixL old (c :: rest) = true
    · rw [if_pos hp] at h; omega
    · rw [if_neg hp, Nat.zero_add] at h
      exact ⟨by simpa using hp, ih h⟩

theorem containsL_drop {old l : List Char} (h : containsL old l = false) (k : Nat) :
    containsL old (l.drop k) = false := by
  induction l generalizing k with
  | nil => simpa using h
  | cons c rest ih =>
    rw [containsL, Bool.or_eq_false_iff] at h
    cases k with
    | zero => rw [List.drop_zero, containsL, Bool.or_eq_false_iff]; exact h
    | succ k => rw [List.drop_succ_cons]; exact ih h.2 k

theorem isPrefixL_append_of_le {old : List Char} :
    ∀ {l : List Char} (x : List Char), old.length ≤ l.length →
      isPrefixL old (l ++ x) = isPrefixL old l := by
  induction old with
  | nil => intro l x _; rfl
  | cons a as ih =>
    intro l x h
    cases l with
    | nil => simp at h
    | cons b bs =>
      rw [List.cons_append, isPrefixL, isPrefixL, ih x (by simpa using h)]

theorem isPrefixL_large_mid (c : Char) (a t : List Char) (h : a.length ≤ 5) :
    isPrefixL largeL (c :: (a ++ (t200L ++ t))) = false := by
  match a with
  | [] => simp [largeL, t200L, isPrefixL]
  | [a1] => simp [largeL, t200L, isPrefixL]
  | [a1, a2] => simp [largeL, t200L, isPrefixL]
  | [a1, a2, a3] => simp [largeL, t200L, isPrefixL]
  | [a1, a2, a3, a4] => simp [largeL, t200L, isPrefixL]
  | [a1, a2, a3, a4, a5] => simp [largeL, t200L, isPrefixL]
  | a1 :: a2 :: a3 :: a4 :: a5 :: a6 :: rest => simp at h

theorem isPrefixL_cons_replace (c : Char) (rest : List Char)
    (h : isPrefixL largeL (c :: rest) = false) :
    isPrefixL largeL (c :: replaceOnceL largeL t200L rest) = false := by
  cases hs : splitFirstL largeL rest with
  | none => rw [replaceOnceL_of_splitFirstL_none hs]; exact h
  | some ab =>
    obtain ⟨a, b⟩ := ab
    rw [replaceOnceL_of_splitFirstL hs]
    have hrest : rest = a ++ largeL ++ b := splitFirstL_eq hs
    by_cases hl : 6 ≤ a.length
    · have e1 : isPrefixL largeL ((c :: a) ++ (t200L ++ b)) = isPrefixL largeL (c :: a) :=
        isPrefixL_append_of_le _ (by simp [largeL]; omega)
      have e2 : isPrefixL largeL ((c :: a) ++ (largeL ++ b)) = isPrefixL largeL (c :: a) :=
        isPrefixL_append_of_le _ (by simp [largeL]; omega)
      have h2 : isPrefixL largeL ((c :: a) ++ (largeL ++ b)) = false := by
        rw [hrest] at h
        simpa [List.append_assoc] using h
      simpa [List.append_assoc] using e1.trans (e2.symm.trans h2)
    · simpa [List.append_assoc] using isPrefixL_large_mid c a b (by omega)

theorem replaceOnceL_large_idem {l : List Char} (h : countOccL largeL l ≤ 1) :
    replaceOnceL largeL t200L (replaceOnceL largeL t200L l) = replaceOnceL largeL t200L l := by
  induction l with
  | nil => rfl
  | cons c rest ih =>
    by_cases hp : isPrefixL largeL (c :: rest) = true
    · have h0 : countOccL largeL rest = 0 := by
        rw [countOccL, if_pos hp] at h; omega
      have hc : containsL largeL rest = false :=
        containsL_eq_false_of_countOccL (by simp [largeL]) h0
      rw [replaceOnceL, if_pos hp]
      apply replaceOnceL_of_not_contains
      have : (c :: rest).drop largeL.length = rest.drop 6 := by simp [largeL]
      rw [this, contains_t200_append]
      exact containsL_drop hc 6
    · have hp2 : isPrefixL largeL (c :: rest) = false := by simpa using hp
      have h1 : countOccL largeL rest ≤ 1 := by
        rw [countOccL, if_neg hp] at h; omega
      rw [replaceOnceL, if_neg hp]
      rw [replaceOnceL, if_neg (by simp [isPrefixL_cons_replace c rest hp2])]
      rw [ih h1]

/-- C3: the artwork rewrite (`strings.Replace(s, "-large.", "-t200x200.", 1)`
in `Track.Fix` / `Playlist.Fix` / `User.Fix`) replaces only the FIRST
occurrence, so applying it twice is not always the same as applying it once:
on `"-large.-large."` the second application rewrites the second occurrence.
This refutes the idempotence part of the claim. -/
theorem claim_C3_counterexample :
    ¬ (artworkRewrite (artworkRewrite "-large.-large.") =
        artworkRewrite "-large.-large.") := by decide

/-- C3 (amended): the artwork rewrite leaves any string with no `"-large."`
substring unchanged; on a string containing `"-large."` it replaces the first
occurrence by `"-t200x200."`; and applying it twice equals applying it once
for every string containing at most one occurrence of `"-large."`. -/
theorem claim_C3_amended :
    (∀ s : String, containsL largeL s.data = false → artworkRewrite s = s) ∧
    (∀ (s : String) (a b : List Char), splitFirstL largeL s.data = some (a, b) →
      s.data = a ++ largeL ++ b ∧ (artworkRewrite s).data = a ++ t200L ++ b) ∧
    (∀ s : String, countOccL largeL s.data ≤ 1 →
      artworkRewrite (artworkRewrite s) = artworkRewrite s) := by
  refine ⟨?_, ?_, ?_⟩
  · intro s h
    exact congrArg String.mk (replaceOnceL_of_not_contains h)
  · intro s a b h
    exact ⟨splitFirstL_eq h, replaceOnceL_of_splitFirstL h⟩
  · intro s h
    exact congrArg String.mk (replaceOnceL_large_idem h)

/-- C3 witness: the amended theorem applied at concrete artwork URLs. -/
theorem claim_C3_witness :
    (containsL largeL "p.jpg".data = false ∧ artworkRewrite "p.jpg" = "p.jpg") ∧
    (splitFirstL largeL "a-large.jpg".data = some (['a'], ['j', 'p', 'g']) ∧
      "a-large.jpg".data = ['a'] ++ largeL ++ ['j', 'p', 'g'] ∧
      (artworkRewrite "a-large.jpg").data = ['a'] ++ t200L ++ ['j', 'p', 'g']) ∧
    (countOccL largeL "b-large.png".data ≤ 1 ∧
      artworkRewrite (artworkRewrite "b-large.png") = artworkRewrite "b-large.png") :=
  ⟨⟨by decide, claim_C3_amended.1 _ (by decide)⟩,
   ⟨by decide, (claim_C3_amended.2.1 _ _ _ (by decide)).1,
    (claim_C3_amended.2.1 _ _ _ (by decide)).2⟩,
   ⟨by decide, claim_C3_amended.2.2 _ (by decide)⟩⟩

/-- Go `strings.Split(s, ":")` specialized to a single-character separator:
splits into (possibly empty) segments; the result is never empty. -/
def splitOnCharL (sep : Char) : List Char → List (List Char)
  | [] => [[]]
  | c :: rest =>
    if c == sep then [] :: splitOnCharL sep rest
    else
      match splitOnCharL sep rest with
      | [] => [[c]]
      | s :: ss => (c :: s) :: ss

/-- `ls := strings.Split(id, ":"); ls[len(ls)-1]` — the identifier suffix
after the last colon (the whole string when there is no colon). -/
def stripNamespace (s : String) : String :=
  ⟨(splitOnCharL ':' s.data).getLastD []⟩

example : stripNamespace "soundcloud:tracks:42" = "42" := by decide
example : stripNamespace "42" = "42" := by decide

/-- Typed errors of the `sc` package: the sentinel `errors.New` values of
`init.go`, the `fmt.Errorf` status-code errors, plus transport and JSON
decode failures (which `init.go` propagates from `fasthttp` / `cfg.JSON`). -/
inductive ScErr where
  | versionNotFound
  | scriptNotFound
  | idNotFound
  | kindNotCorrect
  | incompatibleStream
  | noURL
  | badStatus (code : Nat)
  | decodeFailed
  | transport
deriving DecidableEq, Repr

/-- Modelled from the spec: Track — identifier (string form and the numeric
form the upstream may send instead), title, artwork URL, entity-kind tag.
(The Go struct declaration lives outside `lib/sc/init.go`; fields not used
by any claim are omitted.) -/
structure Track where
  ID : String
  IDint : Int
  Title : String
  Artwork : String
  Kind : String
deriving DecidableEq, Repr

/-- Modelled from the spec: User — identifier, avatar URL, entity-kind tag. -/
structure User where
  ID : String
  Avatar : String
  Kind : String
deriving DecidableEq, Repr

/-- Modelled from the spec: Playlist — artwork URL, ordered track sequence
(`[]*Track` in Go: the splice in `GetMissingTracks` assigns a `*Track` into
it, and the `range`+`Fix` loop in `Playlist.Fix` mutates elements through
the pointer), the serialized missing-tracks cursor, entity-kind tag. -/
structure Playlist where
  Artwork : String
  Tracks : List Track
  MissingTracks : String
  Kind : String
deriving DecidableEq, Repr

/-- Modelled from the spec: a page — the items fetched plus the `next_href`
cursor. In Go `Collection` has type `[]T` (element values, not pointers:
`SearchTracks` instantiates `T = *Track` and calls `u.Fix()` on the loop
variable, which requires the element type itself to be `*Track`). -/
structure Paginated (T : Type) where
  Collection : List T
  Next : String
deriving DecidableEq, Repr

/-- Modelled from the spec: Stream — a single resolved media URL. (Named
`ScStream` here because `Stream` already exists in the Lean core library.) -/
structure ScStream where
  URL : String
deriving DecidableEq, Repr

/-- `MissingTrack` from `init.go`: identifier plus original position. -/
structure MissingTrack where
  ID : String
  Index : Nat
deriving DecidableEq, Repr

/-- `Track.Fix`: rewrite the artwork URL; then if `ID` is empty take the
decimal form of the numeric `IDint`, otherwise keep only the part of `ID`
after the last `":"`. -/
def Track.fix (t : Track) : Track :=
  let t1 := { t with Artwork := artworkRewrite t.Artwork }
  if t1.ID = "" then { t1 with ID := toString t1.IDint }
  else { t1 with ID := stripNamespace t1.ID }

/-- `User.Fix`: rewrite the avatar URL and strip the ID namespace. -/
def User.fix (u : User) : User :=
  { u with Avatar := artworkRewrite u.Avatar, ID := stripNamespace u.ID }

example : (Track.fix ⟨"soundcloud:tracks:42", 0, "t", "a-large.jpg", "track"⟩) =
    ⟨"42", 0, "t", "a-t200x200.jpg", "track"⟩ := by decide
example : (Track.fix ⟨"", 37, "t", "x.jpg", "track"⟩) =
    ⟨"37", 37, "t", "x.jpg", "track"⟩ := by decide

/-- The loop of `TagListParser` in `init.go`: state is the in-quotes flag,
the current segment `cur`, and the accumulated result `res`. A `"` toggles
the flag (without joining `cur`), except that a `"` that is the last
character appends `cur` and returns; an unquoted space appends `cur` and
starts a new segment; any other character extends `cur`. The loop ends
without appending the trailing `cur`. (Go iterates with the byte index `i`;
`i == len(taglist)-1` at a 1-byte `'"'` rune is exactly "`rest` is empty".) -/
def tagLoop : List Char → Bool → List Char → List (List Char) → List (List Char)
  | [], _, _, res => res
  | c :: rest, inString, cur, res =>
    if c = '"' then
      if rest = [] then res ++ [cur]
      else tagLoop rest (!inString) cur res
    else if inString = false ∧ c = ' ' then tagLoop rest inString [] (res ++ [cur])
    else tagLoop rest inString (cur ++ [c]) res

/-- `TagListParser` from `init.go`. -/
def TagListParser (taglist : String) : List String :=
  (tagLoop taglist.data false [] []).map (fun l => ⟨l⟩)

example : TagListParser "rock pop" = ["rock"] := by decide
example : TagListParser "\"rock pop\" jazz \"x y\"" = ["rock pop", "jazz", "x y"] := by decide
example : TagListParser "" = [] := by decide
example : TagListParser "a\"b c\"d e" = ["ab cd"] := by decide

/-- Specification-side description (written from the claim wording, for the
refinement statement of C10): the segments of the input delimited by spaces
occurring outside double-quoted regions, with the quote characters removed. -/
def splitUnquoted : Bool → List Char → List (List Char)
  | _, [] => [[]]
  | inStr, c :: rest =>
    if c = '"' then splitUnquoted (!inStr) rest
    else if inStr = false ∧ c = ' ' then [] :: splitUnquoted inStr rest
    else
      match splitUnquoted inStr rest with
      | [] => [[c]]
      | s :: ss => (c :: s) :: ss

/-- Whether the final character of the input is a double quote. -/
def endsWithQuote : List Char → Bool
  | [] => false
  | [c] => decide (c = '"')
  | _ :: c :: rest => endsWithQuote (c :: rest)

/-- Specification-side description of `TagListParser` from the claim
wording: all unquoted-space-delimited segments (quotes removed), where the
segment after the last unquoted space is kept only when the input ends in a
double quote. -/
def tagListSpec (taglist : String) : List String :=
  (if endsWithQuote taglist.data then splitUnquoted false taglist.data
   else (splitUnquoted false taglist.data).dropLast).map (fun l => ⟨l⟩)

def consHead (cur : List Char) : List (List Char) → List (List Char)
  | [] => []
  | s :: ss => (cur ++ s) :: ss

theorem splitUnquoted_ne_nil (inStr : Bool) (l : List Char) :
    splitUnquoted inStr l ≠ [] := by
  induction l generalizing inStr with
  | nil => simp [splitUnquoted]
  | cons c rest ih =>
    rw [splitUnquoted]
    by_cases h1 : c = '"'
    · simpa [h1] using ih (!inStr)
    · simp only [h1, if_false]
      by_cases h2 : inStr = false ∧ c = ' '
      · simp [h2]
      · simp only [h2, if_false]
        cases hs : splitUnquoted inStr rest with
        | nil => simp
        | cons s ss => simp

theorem splitUnquoted_cons_ex (inStr : Bool) (l : List Char) :
    ∃ s ss, splitUnquoted inStr l = s :: ss := by
  cases hS : splitUnquoted inStr l with
  | nil => exact absurd hS (splitUnquoted_ne_nil inStr l)
  | cons s ss => exact ⟨s, ss, rfl⟩

theorem consHead_nil_left (xs : List (List Char)) : consHead [] xs = xs := by
  cases xs <;> simp [consHead]

theorem tagLoop_spec (l : List Char) :
    ∀ (inStr : Bool) (cur : List Char) (res : List (List Char)),
    tagLoop l inStr cur res =
      res ++ consHead cur
        (if endsWithQuote l then splitUnquoted inStr l
         else (splitUnquoted inStr l).dropLast) := by
  induction l with
  | nil => intro inStr cur res; simp [tagLoop, splitUnquoted, endsWithQuote, consHead]
  | cons c rest ih =>
    intro inStr cur res
    by_cases hcq : c = '"'
    · subst hcq
      cases rest with
      | nil => simp [tagLoop, splitUnquoted, endsWithQuote, consHead]
      | cons d ds =>
        have e0 : tagLoop ('"' :: d :: ds) inStr cur res = tagLoop (d :: ds) (!inStr) cur res := by
          simp [tagLoop]
        have e1 : splitUnquoted inStr ('"' :: d :: ds) = splitUnquoted (!inStr) (d :: ds) := by
          simp [splitUnquoted]
        have e2 : endsWithQuote ('"' :: d :: ds) = endsWithQuote (d :: ds) := rfl
        rw [e0, ih (!inStr) cur res, e1, e2]
    · by_cases hsp : inStr = false ∧ c = ' '
      · obtain ⟨hin, hc⟩ := hsp
        subst hin
        subst hc
        cases rest with
        | nil => simp [tagLoop, splitUnquoted, endsWithQuote, consHead]
        | cons d ds =>
          have e0 : tagLoop (' ' :: d :: ds) false cur res =
              tagLoop (d :: ds) false [] (res ++ [cur]) := by
            simp [tagLoop]
          have e1 : splitUnquoted false (' ' :: d :: ds) =
              [] :: splitUnquoted false (d :: ds) := by
            simp [splitUnquoted]
          have e2 : endsWithQuote (' ' :: d :: ds) = endsWithQuote (d :: ds) := rfl
          rw [e0, ih false [] (res ++ [cur]), consHead_nil_left, e1, e2]
          by_cases hq : endsWithQuote (d :: ds) = true
          · simp [hq, consHead, List.append_assoc]
          · simp only [hq, Bool.false_eq_true, if_false]
            obtain ⟨s, ss, hS⟩ := splitUnquoted_cons_ex false (d :: ds)
            rw [hS]
            have e3 : ([] :: s :: ss).dropLast = [] :: (s :: ss).dropLast := rfl
            rw [e3]
            simp [consHead, List.append_assoc]
      · cases rest with
        | nil =>
          have e0 : tagLoop [c] inStr cur res = res := by
            simp [tagLoop, hcq, hsp]
          have e1 : splitUnquoted inStr [c] = [[c]] := by
            simp [splitUnquoted, hcq, hsp]
          have e2 : endsWithQuote [c] = false := by
            simp [endsWithQuote, hcq]
          rw [e0, e1, e2]
          simp [consHead]
        | cons d ds =>
          have e0 : tagLoop (c :: d :: ds) inStr cur res =
              tagLoop (d :: ds) inStr (cur ++ [c]) res := by
            simp [tagLoop, hcq, hsp]
          rw [e0, ih inStr (cur ++ [c]) res]
          have e2 : endsWithQuote (c :: d :: ds) = endsWithQuote (d :: ds) := rfl
          rw [e2]
          obtain ⟨s, ss, hS⟩ := splitUnquoted_cons_ex inStr (d :: ds)
          have e1 : splitUnquoted inStr (c :: d :: ds) = (c :: s) :: ss := by
            rw [splitUnquoted]
            simp [hcq, hsp, hS]
          rw [e1, hS]
          by_cases hq : endsWithQuote (d :: ds) = true
          · simp [hq, consHead, List.append_assoc]
          · simp only [hq, Bool.false_eq_true, if_false]
            cases ss with
            | nil => simp [consHead]
            | cons t ts =>
              have e3 : (s :: t :: ts).dropLast = s :: (t :: ts).dropLast := rfl
              have e4 : ((c :: s) :: t :: ts).dropLast = (c :: s) :: (t :: ts).dropLast := rfl
              rw [e3, e4]
              simp [consHead, List.append_assoc]

/-- C10: `TagListParser` splits its input into tags at space characters
outside double-quoted regions, keeps quoted characters (spaces included)
together with the quote characters removed, and includes the segment after
the last unquoted space only when the final character of the input is a
double quote (dropping it otherwise) — i.e. it agrees with `tagListSpec`,
the function written from that description. -/
theorem claim_C10 (s : String) : TagListParser s = tagListSpec s := by
  rw [TagListParser, tagListSpec, tagLoop_spec s.data false [] [], consHead_nil_left]
  simp

/-- A transport-level error as `DoWithRetry` sees it: whether the Go side
classifies it as a timeout (`os.IsTimeout(err) || err == fasthttp.ErrTimeout`),
plus an opaque tag distinguishing concrete errors. -/
structure HErr where
  isTimeout : Bool
  code : Nat
deriving DecidableEq, Repr

/-- The loop of `DoWithRetry`: `attempt i` is the outcome of the `i`-th
`httpc.Do` call (`none` = success). State: the error of the previous
attempt (returned when the fuel runs out, as Go returns the named `err`
after the loop), the attempt counter `i`, and the remaining iterations.
The result carries the returned error and the number of attempts made. -/
def retryLoop (attempt : Nat → Option HErr) : Option HErr → Nat → Nat → Option HErr × Nat
  | last, i, 0 => (last, i)
  | _, i, rem + 1 =>
    match attempt i with
    | none => (none, i + 1)
    | some e => if e.isTimeout then retryLoop attempt (some e) (i + 1) rem
                else (some e, i + 1)

/-- `DoWithRetry` from `init.go`: up to 5 attempts starting at attempt 0. -/
def DoWithRetry (attempt : Nat → Option HErr) : Option HErr × Nat :=
  retryLoop attempt none 0 5

theorem retryLoop_count_le (attempt : Nat → Option HErr) :
    ∀ (rem i : Nat) (last : Option HErr), (retryLoop attempt last i rem).2 ≤ i + rem := by
  intro rem
  induction rem with
  | zero => intro i last; simp [retryLoop]
  | succ rem ih =>
    intro i last
    rw [retryLoop]
    cases attempt i with
    | none => simp
    | some e =>
      by_cases ht : e.isTimeout = true
      · simp only [ht, if_true]
        have := ih (i + 1) (some e)
        omega
      · simp only [ht, Bool.false_eq_true, if_false]
        simp

theorem doWithRetry_stop_at (attempt : Nat → Option HErr) (i : Nat) (hi : i < 5)
    (htime : ∀ j, j < i → ∃ e, attempt j = some e ∧ e.isTimeout = true)
    (hstop : ∀ e, attempt i = some e → e.isTimeout = false) :
    DoWithRetry attempt = (attempt i, i + 1) := by
  match i, hi with
  | 0, _ =>
    cases hfi : attempt 0 with
    | none => simp [DoWithRetry, retryLoop, hfi]
    | some e => simp [DoWithRetry, retryLoop, hfi, hstop e hfi]
  | 1, _ =>
    obtain ⟨e0, h0, t0⟩ := htime 0 (by omega)
    cases hfi : attempt 1 with
    | none => simp [DoWithRetry, retryLoop, h0, t0, hfi]
    | some e => simp [DoWithRetry, retryLoop, h0, t0, hfi, hstop e hfi]
  | 2, _ =>
    obtain ⟨e0, h0, t0⟩ := htime 0 (by omega)
    obtain ⟨e1, h1, t1⟩ := htime 1 (by omega)
    cases hfi : attempt 2 with
    | none => simp [DoWithRetry, retryLoop, h0, t0, h1, t1, hfi]
    | some e => simp [DoWithRetry, retryLoop, h0, t0, h1, t1, hfi, hstop e hfi]
  | 3, _ =>
    obtain ⟨e0, h0, t0⟩ := htime 0 (by omega)
    obtain ⟨e1, h1, t1⟩ := htime 1 (by omega)
    obtain ⟨e2, h2, t2⟩ := htime 2 (by omega)
    cases hfi : attempt 3 with
    | none => simp [DoWithRetry, retryLoop, h0, t0, h1, t1, h2, t2, hfi]
    | some e => simp [DoWithRetry, retryLoop, h0, t0, h1, t1, h2, t2, hfi, hstop e hfi]
  | 4, _ =>
    obtain ⟨e0, h0, t0⟩ := htime 0 (by omega)
    obtain ⟨e1, h1, t1⟩ := htime 1 (by omega)
    obtain ⟨e2, h2, t2⟩ := htime 2 (by omega)
    obtain ⟨e3, h3, t3⟩ := htime 3 (by omega)
    cases hfi : attempt 4 with
    | none => simp [DoWithRetry, retryLoop, h0, t0, h1, t1, h2, t2, h3, t3, hfi]
    | some e => simp [DoWithRetry, retryLoop, h0, t0, h1, t1, h2, t2, h3, t3, hfi, hstop e hfi]

theorem doWithRetry_all_timeout (attempt : Nat → Option HErr)
    (htime : ∀ j, j < 5 → ∃ e, attempt j = some e ∧ e.isTimeout = true) :
    DoWithRetry attempt = (attempt 4, 5) := by
  obtain ⟨e0, h0, t0⟩ := htime 0 (by omega)
  obtain ⟨e1, h1, t1⟩ := htime 1 (by omega)
  obtain ⟨e2, h2, t2⟩ := htime 2 (by omega)
  obtain ⟨e3, h3, t3⟩ := htime 3 (by omega)
  obtain ⟨e4, h4, t4⟩ := htime 4 (by omega)
  simp [DoWithRetry, retryLoop, h0, t0, h1, t1, h2, t2, h3, t3, h4, t4]

/-- C5: `DoWithRetry` makes at most 5 attempts; when every attempt times
out it makes exactly 5 attempts and returns the (timeout) error of the last
attempt; a non-timeout failure at ANY attempt (every earlier attempt having
failed with a timeout, since only timeouts are re-attempted) is returned
immediately — attempt `i` failing non-timeout ends the call after exactly
`i + 1` attempts, so a first-attempt non-timeout failure means exactly 1
attempt; and a success after only-timeout failures returns `none` (nil
error) with no further attempts. -/
theorem claim_C5 :
    (∀ attempt, (DoWithRetry attempt).2 ≤ 5) ∧
    (∀ attempt, (∀ j, j < 5 → ∃ e, attempt j = some e ∧ e.isTimeout = true) →
      DoWithRetry attempt = (attempt 4, 5) ∧
      ∃ e, attempt 4 = some e ∧ e.isTimeout = true) ∧
    (∀ attempt i e, i < 5 →
      (∀ j, j < i → ∃ e2, attempt j = some e2 ∧ e2.isTimeout = true) →
      attempt i = some e → e.isTimeout = false →
      DoWithRetry attempt = (some e, i + 1)) ∧
    (∀ attempt i, i < 5 → (∀ j, j < i → ∃ e, attempt j = some e ∧ e.isTimeout = true) →
      attempt i = none → DoWithRetry attempt = (none, i + 1)) := by
  refine ⟨?_, ?_, ?_, ?_⟩
  · intro attempt
    simpa using retryLoop_count_le attempt 5 0 none
  · intro attempt htime
    exact ⟨doWithRetry_all_timeout attempt htime, htime 4 (by omega)⟩
  · intro attempt i e hi htime hie t0
    have := doWithRetry_stop_at attempt i hi htime
      (fun e2 he2 => by rw [hie] at he2; cases he2; exact t0)
    rw [hie] at this
    exact this
  · intro attempt i hi htime hsucc
    have := doWithRetry_stop_at attempt i hi htime
      (fun e2 he2 => by rw [hsucc] at he2; cases he2)
    rw [hsucc] at this
    exact this

/-- C5 witness: the theorem applied to an always-timeout transport, an
immediately-failing transport, a transport that times out twice and then
fails with a non-timeout error on the third attempt (exactly 3 attempts),
and an immediately-succeeding transport. -/
theorem claim_C5_witness :
    (DoWithRetry (fun _ => some ⟨true, 7⟩)).2 ≤ 5 ∧
    DoWithRetry (fun _ => some ⟨true, 7⟩) = (some ⟨true, 7⟩, 5) ∧
    DoWithRetry (fun _ => some ⟨false, 9⟩) = (some ⟨false, 9⟩, 1) ∧
    DoWithRetry (fun j => if j < 2 then some ⟨true, 7⟩ else some ⟨false, 9⟩) =
      (some ⟨false, 9⟩, 3) ∧
    DoWithRetry (fun _ => none) = (none, 1) :=
  ⟨claim_C5.1 _,
   (claim_C5.2.1 _ (fun j _ => ⟨⟨true, 7⟩, rfl, rfl⟩)).1,
   claim_C5.2.2.1 _ 0 _ (by omega) (fun j hj => absurd hj (Nat.not_lt_zero j)) rfl rfl,
   claim_C5.2.2.1 _ 2 _ (by omega) (fun j hj => ⟨⟨true, 7⟩, by simp [hj], rfl⟩) rfl rfl,
   claim_C5.2.2.2 _ 0 (by omega) (fun j hj => absurd hj (Nat.not_lt_zero j)) rfl⟩

/-- The shared `clientIdCache` cell of `init.go` (string token, version
marker, next-check time). The `[]byte` duplicates of the token/version are
not modelled separately: `init.go` keeps them byte-for-byte equal to the
string forms. -/
structure ClientIdCache where
  clientIDString : String
  version : String
  nextCheck : Nat
deriving DecidableEq, Repr

/-- Oracle for one `GetClientID` run: the current time, whether the
`fasthttp.Do` fetch of the 404 page succeeds, the version marker
`verRegex` extracts from the page body (`none` = no match), and, for each
script tag `scriptsRegex` finds, the client id `clientIdRegex` extracts
from that script body (`none` = fetch failed or no match, which the Go
loop skips with `continue`). -/
structure TokenEnv where
  now : Nat
  pageFetchOk : Bool
  pageVersion : Option String
  scripts : List (Option String)
deriving DecidableEq, Repr

/-- The script-scanning loop of `GetClientID`: first script that yields a
client id wins. -/
def firstScriptId : List (Option String) → Option String
  | [] => none
  | some cid :: _ => some cid
  | none :: rest => firstScriptId rest

/-- `GetClientID` from `init.go`, as a function of the cache cell and the
fetch oracle; returns the result and the new cell. Fast path when
`nextCheck.After(now)`; then page fetch, version extraction, the
version-equality early return, script scanning, and the cell update
(`nextCheck = now + cfg.ClientIDTTL`) only on the script-match path. -/
def GetClientID (ttl : Nat) (st : ClientIdCache) (env : TokenEnv) :
    Except ScErr String × ClientIdCache :=
  if env.now < st.nextCheck then (.ok st.clientIDString, st)
  else if env.pageFetchOk = false then (.error .transport, st)
  else
    match env.pageVersion with
    | none => (.error .versionNotFound, st)
    | some ver =>
      if ver = st.version then (.ok st.clientIDString, st)
      else if env.scripts = [] then (.error .scriptNotFound, st)
      else
        match firstScriptId env.scripts with
        | some cid =>
          (.ok cid, { clientIDString := cid, version := ver, nextCheck := env.now + ttl })
        | none => (.error .idNotFound, st)

theorem getClientID_version_match (ttl : Nat) (st : ClientIdCache) (env : TokenEnv)
    (hdue : st.nextCheck ≤ env.now) (hfetch : env.pageFetchOk = true)
    (hver : env.pageVersion = some st.version) :
    GetClientID ttl st env = (.ok st.clientIDString, st) := by
  rw [GetClientID, if_neg (by omega), if_neg (by simp [hfetch]), hver]
  simp

/-- C1: refuted at a concrete cell/fetch. With `nextCheck = 50` already
past (`now = 100`) and the extracted version equal to the cached one,
`GetClientID` returns the cached token but leaves the cell — in particular
`nextCheck` — unchanged: the new `nextCheck` is not after `now`, is not
`nextCheck + ttl`, and a subsequent call does not take the fast path (it
re-fetches the page: with the page fetch failing it returns a transport
error instead of the cached token). -/
theorem claim_C1_counterexample :
    GetClientID 3600 ⟨"tok", "123", 50⟩ ⟨100, true, some "123", [some "zzz"]⟩ =
      (.ok "tok", ⟨"tok", "123", 50⟩) ∧
    ¬ (100 < (GetClientID 3600 ⟨"tok", "123", 50⟩
        ⟨100, true, some "123", [some "zzz"]⟩).2.nextCheck) ∧
    (GetClientID 3600 ⟨"tok", "123", 50⟩ ⟨100, true, some "123", [some "zzz"]⟩).2.nextCheck ≠
      50 + 3600 ∧
    (GetClientID 3600
        (GetClientID 3600 ⟨"tok", "123", 50⟩ ⟨100, true, some "123", [some "zzz"]⟩).2
        ⟨100, false, none, []⟩).1 = .error .transport := by
  refine ⟨rfl, by decide, by decide, rfl⟩

/-- C1 (amended): when the extracted version marker equals the cached one,
`GetClientID` returns the cached token and leaves the shared cell entirely
unchanged — `nextCheck` is NOT extended, so subsequent calls keep
re-fetching the page and re-comparing version markers until a version
change makes the full refresh path run. -/
theorem claim_C1_amended (ttl : Nat) (st : ClientIdCache) (env : TokenEnv)
    (hdue : st.nextCheck ≤ env.now) (hfetch : env.pageFetchOk = true)
    (hver : env.pageVersion = some st.version) :
    (GetClientID ttl st env).1 = .ok st.clientIDString ∧
    (GetClientID ttl st env).2 = st := by
  rw [getClientID_version_match ttl st env hdue hfetch hver]
  exact ⟨rfl, rfl⟩

/-- C1 witness: the amended theorem at a concrete expired cell. -/
theorem claim_C1_witness :
    (⟨"tok", "123", 50⟩ : ClientIdCache).nextCheck ≤ 100 ∧
    (GetClientID 3600 ⟨"tok", "123", 50⟩ ⟨100, true, some "123", []⟩).1 = .ok "tok" ∧
    (GetClientID 3600 ⟨"tok", "123", 50⟩ ⟨100, true, some "123", []⟩).2 =
      ⟨"tok", "123", 50⟩ :=
  ⟨by decide,
   (claim_C1_amended 3600 _ _ (by decide) rfl rfl).1,
   (claim_C1_amended 3600 _ _ (by decide) rfl rfl).2⟩

/-- The tail of `Resolve` after `DoWithRetry` succeeds: the
`resp.StatusCode() != 200` check (`"resolve: got status code %d"`), then
the JSON decode of the (possibly decompressed) body, modelled by the
`decode` oracle. -/
def resolveResp {α : Type} (status : Nat) (decode : Except ScErr α) : Except ScErr α :=
  if status ≠ 200 then .error (.badStatus status) else decode

/-- The tail of `Paginated.Proceed` after `DoWithRetry` succeeds:
`"paginated.proceed: got status code %d"` on non-200, then decode into the
page. -/
def proceedResp {T : Type} (status : Nat) (decode : Except ScErr (Paginated T)) :
    Except ScErr (Paginated T) :=
  if status ≠ 200 then .error (.badStatus status) else decode

/-- The tail of `Track.GetStream` after `DoWithRetry` succeeds: the status
check, the `Stream` decode, and the empty-URL check (`ErrNoURL`). -/
def getStreamResp (status : Nat) (decode : Except ScErr ScStream) : Except ScErr String :=
  if status ≠ 200 then .error (.badStatus status)
  else
    match decode with
    | .error e => .error e
    | .ok s => if s.URL = "" then .error .noURL else .ok s.URL

/-- The tail of the batch `GetTracks` after `DoWithRetry` succeeds: the
source performs NO status-code check — it decodes the body into `[]*Track`
and runs `Fix` on each element (through the pointers) regardless of the
response status. -/
def getTracksResp (status : Nat) (decode : Except ScErr (List Track)) :
    Except ScErr (List Track) :=
  match decode with
  | .error e => .error e
  | .ok res => .ok (res.map Track.fix)

/-- A concrete track for the C4 counterexample. -/
def c4Track : Track := ⟨"soundcloud:tracks:7", 0, "t", "", "track"⟩

/-- C4: refuted for the batch `GetTracks` endpoint: with a non-200 status
(500) and a decodable body it decodes the body as a success instead of
returning an error embedding the status code. -/
theorem claim_C4_counterexample :
    getTracksResp 500 (.ok [c4Track]) = .ok [Track.fix c4Track] ∧
    getTracksResp 500 (.ok [c4Track]) ≠ .error (.badStatus 500) :=
  ⟨rfl, by simp [getTracksResp]⟩

/-- C4 (amended): `Resolve`, `Paginated.Proceed` and `GetStream` surface a
non-200 response status as an error embedding the status code; the batch
`GetTracks` endpoint performs no status check at all — its result is
independent of the status. -/
theorem claim_C4_amended :
    (∀ (α : Type) (status : Nat) (d : Except ScErr α), status ≠ 200 →
      resolveResp status d = .error (.badStatus status)) ∧
    (∀ (T : Type) (status : Nat) (d : Except ScErr (Paginated T)), status ≠ 200 →
      proceedResp status d = .error (.badStatus status)) ∧
    (∀ (status : Nat) (d : Except ScErr ScStream), status ≠ 200 →
      getStreamResp status d = .error (.badStatus status)) ∧
    (∀ (status : Nat) (d : Except ScErr (List Track)),
      getTracksResp status d = getTracksResp 200 d) := by
  refine ⟨?_, ?_, ?_, ?_⟩
  · intro α status d h; simp [resolveResp, h]
  · intro T status d h; simp [proceedResp, h]
  · intro status d h; simp [getStreamResp, h]
  · intro status d; rfl

/-- C4 witness: the amended theorem at status 500. -/
theorem claim_C4_witness :
    (500 : Nat) ≠ 200 ∧
    resolveResp 500 (.ok (⟨"u", "", "user"⟩ : User)) = .error (.badStatus 500) ∧
    proceedResp 500 (.ok (⟨[], ""⟩ : Paginated Track)) = .error (.badStatus 500) ∧
    getStreamResp 500 (.ok ⟨"http://x"⟩) = .error (.badStatus 500) ∧
    getTracksResp 500 (.ok [c4Track]) = getTracksResp 200 (.ok [c4Track]) :=
  ⟨by decide,
   claim_C4_amended.1 User 500 _ (by decide),
   claim_C4_amended.2.1 Track 500 _ (by decide),
   claim_C4_amended.2.2.1 500 _ (by decide),
   claim_C4_amended.2.2.2 500 _⟩

/-- `User.GetTracks`: build the first-page URL, run `Proceed` (modelled by
the `proceed` oracle: token fetch + transport + status check + decode of
the page, as in `proceedResp`), then the loop
`for _, u := range p.Collection { u.Fix() }`. `Collection` is `[]Track`,
so the loop variable is a copy of each element: `Fix` (pointer receiver)
mutates the copy, and the page is returned with its collection unchanged —
the embedding keeps the discarded fixed copies explicit. -/
def userGetTracks (proceed : String → Except ScErr (Paginated Track)) (u : User)
    (args : String) : Except ScErr (Paginated Track) :=
  match proceed ("https://api-v2.soundcloud.com/users/" ++ u.ID ++ "/tracks" ++ args) with
  | .error e => .error e
  | .ok p =>
    let _fixedCopies := p.Collection.map Track.fix
    .ok p

/-- A decoded track with a namespaced id and a `-large.` artwork URL. -/
def c2Track : Track := ⟨"soundcloud:tracks:42", 0, "song", "art-large.jpg", "track"⟩

/-- A decoded page containing `c2Track`. -/
def c2Page : Paginated Track := ⟨[c2Track], ""⟩

/-- C2: the code bug demonstrated. When the decoded page contains a track
with id `"soundcloud:tracks:42"`, `User.GetTracks` returns the page
unchanged: the exposed track still carries the namespaced id (and the
un-rewritten artwork URL), while `Track.fix` of that track differs — the
range-by-value loop made the normalization a no-op. -/
theorem claim_C2_bug :
    userGetTracks (fun _ => .ok c2Page) ⟨"10", "", "user"⟩ "" = .ok c2Page ∧
    c2Page.Collection = [c2Track] ∧
    Track.fix c2Track ≠ c2Track ∧
    (Track.fix c2Track).ID = "42" ∧
    c2Track.ID = "soundcloud:tracks:42" :=
  ⟨rfl, rfl, by decide, by decide, rfl⟩

/-- `JoinMissingTracks` from `init.go`: the ids joined with `","` between
consecutive entries (the Go loop appends a comma after every entry except
the last). -/
def JoinMissingTracks : List MissingTrack → String
  | [] => ""
  | [t] => t.ID
  | t :: rest => t.ID ++ "," ++ JoinMissingTracks rest

/-- `GetMissingTracks(missing []MissingTrack)` from `init.go`: when more
than 50 entries are given, `next` keeps everything after the first 50 and
only the first 50 are joined and fetched. The `fetch` oracle stands for
the batch `GetTracks` call (network + decode + per-track `Fix`); the third
component records the ids string passed to it, so that theorems can speak
about which identifiers were requested. -/
def GetMissingTracksB (fetch : String → Except ScErr (List Track))
    (missing : List MissingTrack) :
    Except ScErr (List Track) × List MissingTrack × String :=
  let next := if missing.length > 50 then missing.drop 50 else []
  let chunk := if missing.length > 50 then missing.take 50 else missing
  let req := JoinMissingTracks chunk
  (fetch req, next, req)

/-- The stub-collection loop of `Playlist.GetMissingTracks`: the `(id,
index)` of every track with an empty title, in playlist order. -/
def collectMissing : List Track → Nat → List MissingTrack
  | [], _ => []
  | t :: rest, i =>
    if t.Title = "" then ⟨t.ID, i⟩ :: collectMissing rest (i + 1)
    else collectMissing rest (i + 1)

/-- The splice loops of `Playlist.GetMissingTracks`: for each stub, every
fetched track with a matching id is assigned into the stub's original
index (the Go inner loop has no `break`, so a later match overwrites an
earlier one; `List.set` ignores out-of-range indices, and stub indices are
in range by construction). -/
def spliceLoops (tracks : List Track) (missing : List MissingTrack)
    (res : List Track) : List Track :=
  missing.foldl
    (fun ts old =>
      res.foldl (fun ts2 newT => if newT.ID = old.ID then ts2.set old.Index newT else ts2) ts)
    tracks

/-- `Playlist.GetMissingTracks` from `init.go`: collect stubs, chunked
batch fetch, splice, and store the comma-joined overflow in the
`MissingTracks` cursor field. Returns the requested-ids string alongside
the result. -/
def playlistGetMissingTracks (fetch : String → Except ScErr (List Track))
    (p : Playlist) : String × Except ScErr Playlist :=
  let missing := collectMissing p.Tracks 0
  let r := GetMissingTracksB fetch missing
  match r.1 with
  | .error e => (r.2.2, .error e)
  | .ok res =>
    (r.2.2, .ok { p with Tracks := spliceLoops p.Tracks missing res,
                         MissingTracks := JoinMissingTracks r.2.1 })

/-- C6: when a playlist has more than 50 stub tracks (empty title), one
reconciliation call requests exactly the ids of the first 50 stubs in
original playlist order (comma-joined), and on success the playlist's
`MissingTracks` cursor is exactly the remaining stub ids, comma-joined in
original order. -/
theorem claim_C6 (fetch : String → Except ScErr (List Track)) (p : Playlist)
    (h50 : (collectMissing p.Tracks 0).length > 50) :
    (playlistGetMissingTracks fetch p).1 =
      JoinMissingTracks ((collectMissing p.Tracks 0).take 50) ∧
    ∀ p2, (playlistGetMissingTracks fetch p).2 = .ok p2 →
      p2.MissingTracks = JoinMissingTracks ((collectMissing p.Tracks 0).drop 50) := by
  constructor
  · rw [playlistGetMissingTracks, GetMissingTracksB]
    simp only [h50, if_pos]
    cases fetch (JoinMissingTracks ((collectMissing p.Tracks 0).take 50)) <;> simp
  · intro p2 hp2
    rw [playlistGetMissingTracks, GetMissingTracksB] at hp2
    simp only [h50, if_pos] at hp2
    cases hf : fetch (JoinMissingTracks ((collectMissing p.Tracks 0).take 50)) with
    | error e => rw [hf] at hp2; simp at hp2
    | ok res =>
      rw [hf] at hp2
      simp only [Except.ok.injEq] at hp2
      rw [← hp2]

/-- 120 stub tracks (empty titles) with ids `"0"`..`"119"`. -/
def c6Tracks : List Track := (List.range 120).map (fun i => ⟨toString i, 0, "", "", "track"⟩)

/-- A playlist with 120 stub tracks. -/
def c6Playlist : Playlist := ⟨"", c6Tracks, "", "playlist"⟩

/-- A batch-fetch oracle that succeeds with no tracks. -/
def c6Fetch : String → Except ScErr (List Track) := fun _ => .ok []

/-- The playlist `playlistGetMissingTracks c6Fetch c6Playlist` produces. -/
def c6Fixed : Playlist :=
  { c6Playlist with
      Tracks := spliceLoops c6Playlist.Tracks (collectMissing c6Playlist.Tracks 0) [],
      MissingTracks := JoinMissingTracks ((collectMissing c6Playlist.Tracks 0).drop 50) }

set_option maxRecDepth 4000 in
/-- C6 witness: with 120 stubs, the call requests the first 50 ids and
leaves a cursor of the remaining 70, comma-joined in original order. -/
theorem claim_C6_witness :
    (collectMissing c6Playlist.Tracks 0).length > 50 ∧
    (playlistGetMissingTracks c6Fetch c6Playlist).1 =
      JoinMissingTracks ((collectMissing c6Playlist.Tracks 0).take 50) ∧
    (playlistGetMissingTracks c6Fetch c6Playlist).2 = .ok c6Fixed ∧
    c6Fixed.MissingTracks = JoinMissingTracks ((collectMissing c6Playlist.Tracks 0).drop 50) :=
  ⟨by decide,
   (claim_C6 c6Fetch c6Playlist (by decide)).1,
   rfl,
   (claim_C6 c6Fetch c6Playlist (by decide)).2 c6Fixed rfl⟩

/-- A `cached[T]` cell of `init.go`: a value plus its absolute expiry. -/
structure CachedCell (V : Type) where
  Value : V
  Expires : Nat
deriving DecidableEq, Repr

/-- Go map read (`usersCache[permalink]`), modelled over an association
list: the most recent binding for a key wins. -/
def cacheLookup {V : Type} : List (String × CachedCell V) → String → Option (CachedCell V)
  | [], _ => none
  | (k, v) :: rest, key => if k = key then some v else cacheLookup rest key

/-- Go map assignment: the new binding shadows any older one. -/
def cacheInsert {V : Type} (cache : List (String × CachedCell V)) (key : String)
    (v : CachedCell V) : List (String × CachedCell V) :=
  (key, v) :: cache

/-- The guard of the read fast path: `cell, ok := cache[permalink]` and
`ok && cell.Expires.After(now)`. -/
def hitCell {V : Type} (cache : List (String × CachedCell V)) (now : Nat)
    (key : String) : Option (CachedCell V) :=
  match cacheLookup cache key with
  | some cell => if now < cell.Expires then some cell else none
  | none => none

theorem hitCell_eq_some {V : Type} (cache : List (String × CachedCell V)) (now : Nat)
    (key : String) (cell : CachedCell V) :
    hitCell cache now key = some cell ↔
      cacheLookup cache key = some cell ∧ now < cell.Expires := by
  rw [hitCell]
  cases h : cacheLookup cache key with
  | none => simp
  | some c =>
    show (if now < c.Expires then some c else none) = some cell ↔
      some c = some cell ∧ now < cell.Expires
    by_cases he : now < c.Expires
    · rw [if_pos he]
      constructor
      · intro h2
        injection h2 with h3
        subst h3
        exact ⟨rfl, he⟩
      · rintro ⟨h2, _⟩
        injection h2 with h3
        rw [h3]
    · rw [if_neg he]
      constructor
      · intro h2
        exact Option.noConfusion h2
      · rintro ⟨h2, hlt⟩
        injection h2 with h3
        subst h3
        exact absurd hlt he

/-- `GetUser` from `init.go`. The `resolve` oracle stands for `Resolve`
(token discovery + transport + status check + JSON decode, any of whose
failures it returns as an error). Returns the result, the new cache
(expiry `now + cfg.UserTTL` on the write path), and whether an upstream
resolve was performed. -/
def GetUser (resolve : String → Except ScErr User) (now ttl : Nat)
    (cache : List (String × CachedCell User)) (permalink : String) :
    Except ScErr User × List (String × CachedCell User) × Bool :=
  match hitCell cache now permalink with
  | some cell => (.ok cell.Value, cache, false)
  | none =>
    match resolve permalink with
    | .error e => (.error e, cache, true)
    | .ok u =>
      if u.Kind ≠ "user" then (.error .kindNotCorrect, cache, true)
      else
        let u2 := u.fix
        (.ok u2, cacheInsert cache permalink ⟨u2, now + ttl⟩, true)

/-- `GetTrack` from `init.go`, analogous to `GetUser` with kind `"track"`
and `cfg.TrackTTL`. -/
def GetTrack (resolve : String → Except ScErr Track) (now ttl : Nat)
    (cache : List (String × CachedCell Track)) (permalink : String) :
    Except ScErr Track × List (String × CachedCell Track) × Bool :=
  match hitCell cache now permalink with
  | some cell => (.ok cell.Value, cache, false)
  | none =>
    match resolve permalink with
    | .error e => (.error e, cache, true)
    | .ok u =>
      if u.Kind ≠ "track" then (.error .kindNotCorrect, cache, true)
      else
        let u2 := u.fix
        (.ok u2, cacheInsert cache permalink ⟨u2, now + ttl⟩, true)

/-- `Playlist.Fix(cached bool)` from `init.go`: when `cached`, run
`Track.Fix` on every track (through the `[]*Track` pointers), then
reconciliation (`GetMissingTracks`), propagating its error; finally (or
only, when not `cached`) rewrite the artwork URL. -/
def playlistFix (fetch : String → Except ScErr (List Track)) (cachedFlag : Bool)
    (p : Playlist) : Except ScErr Playlist :=
  if cachedFlag then
    let p1 := { p with Tracks := p.Tracks.map Track.fix }
    match (playlistGetMissingTracks fetch p1).2 with
    | .error e => .error e
    | .ok p2 => .ok { p2 with Artwork := artworkRewrite p2.Artwork }
  else .ok { p with Artwork := artworkRewrite p.Artwork }

/-- `GetPlaylist` from `init.go`: like `GetUser`/`GetTrack` but with the
extra fallible `Fix(true)` step (track normalization + reconciliation)
before the cache write. -/
def GetPlaylist (resolve : String → Except ScErr Playlist)
    (fetch : String → Except ScErr (List Track)) (now ttl : Nat)
    (cache : List (String × CachedCell Playlist)) (permalink : String) :
    Except ScErr Playlist × List (String × CachedCell Playlist) × Bool :=
  match hitCell cache now permalink with
  | some cell => (.ok cell.Value, cache, false)
  | none =>
    match resolve permalink with
    | .error e => (.error e, cache, true)
    | .ok u =>
      if u.Kind ≠ "playlist" then (.error .kindNotCorrect, cache, true)
      else
        match playlistFix fetch true u with
        | .error e => (.error e, cache, true)
        | .ok u2 => (.ok u2, cacheInsert cache permalink ⟨u2, now + ttl⟩, true)

theorem getUser_missFlag (resolve : String → Except ScErr User) (now ttl : Nat)
    (cache : List (String × CachedCell User)) (permalink : String)
    (h : hitCell cache now permalink = none) :
    (GetUser resolve now ttl cache permalink).2.2 = true := by
  rw [GetUser, h]
  cases resolve permalink with
  | error e => rfl
  | ok u =>
    by_cases hk : u.Kind ≠ "user"
    · simp [hk]
    · simp [hk]

theorem getTrack_missFlag (resolve : String → Except ScErr Track) (now ttl : Nat)
    (cache : List (String × CachedCell Track)) (permalink : String)
    (h : hitCell cache now permalink = none) :
    (GetTrack resolve now ttl cache permalink).2.2 = true := by
  rw [GetTrack, h]
  cases resolve permalink with
  | error e => rfl
  | ok u =>
    by_cases hk : u.Kind ≠ "track"
    · simp [hk]
    · simp [hk]

theorem getPlaylist_missFlag (resolve : String → Except ScErr Playlist)
    (fetch : String → Except ScErr (List Track)) (now ttl : Nat)
    (cache : List (String × CachedCell Playlist)) (permalink : String)
    (h : hitCell cache now permalink = none) :
    (GetPlaylist resolve fetch now ttl cache permalink).2.2 = true := by
  rw [GetPlaylist, h]
  cases resolve permalink with
  | error e => rfl
  | ok u =>
    by_cases hk : u.Kind ≠ "playlist"
    · simp [hk]
    · simp only [hk, if_neg, ite_not]
      cases playlistFix fetch true u with
      | error e => simp [hk]
      | ok u2 => simp [hk]

theorem getUser_hit (resolve : String → Except ScErr User) (now ttl : Nat)
    (cache : List (String × CachedCell User)) (permalink : String)
    (cell : CachedCell User) (hcell : cacheLookup cache permalink = some cell)
    (hexp : now < cell.Expires) :
    GetUser resolve now ttl cache permalink = (.ok cell.Value, cache, false) := by
  rw [GetUser, (hitCell_eq_some cache now permalink cell).mpr ⟨hcell, hexp⟩]

theorem getTrack_hit (resolve : String → Except ScErr Track) (now ttl : Nat)
    (cache : List (String × CachedCell Track)) (permalink : String)
    (cell : CachedCell Track) (hcell : cacheLookup cache permalink = some cell)
    (hexp : now < cell.Expires) :
    GetTrack resolve now ttl cache permalink = (.ok cell.Value, cache, false) := by
  rw [GetTrack, (hitCell_eq_some cache now permalink cell).mpr ⟨hcell, hexp⟩]

theorem getPlaylist_hit (resolve : String → Except ScErr Playlist)
    (fetch : String → Except ScErr (List Track)) (now ttl : Nat)
    (cache : List (String × CachedCell Playlist)) (permalink : String)
    (cell : CachedCell Playlist) (hcell : cacheLookup cache permalink = some cell)
    (hexp : now < cell.Expires) :
    GetPlaylist resolve fetch now ttl cache permalink = (.ok cell.Value, cache, false) := by
  rw [GetPlaylist, (hitCell_eq_some cache now permalink cell).mpr ⟨hcell, hexp⟩]

/-- C7: for each of `GetUser`, `GetTrack`, `GetPlaylist`: a cache lookup
that finds an entry with expiry after `now` returns that entry's value
unchanged, with the cache untouched and no upstream request; and whenever
no upstream request is performed, the served value is exactly the value of
an entry whose expiry is after `now` — the read path itself rechecks
expiry, so an expired entry is never served. -/
theorem claim_C7 :
    (∀ resolve now ttl cache permalink cell,
      cacheLookup cache permalink = some cell → now < cell.Expires →
      GetUser resolve now ttl cache permalink = (.ok cell.Value, cache, false)) ∧
    (∀ resolve now ttl cache permalink,
      (GetUser resolve now ttl cache permalink).2.2 = false →
      ∃ cell, cacheLookup cache permalink = some cell ∧ now < cell.Expires ∧
        (GetUser resolve now ttl cache permalink).1 = .ok cell.Value) ∧
    (∀ resolve now ttl cache permalink cell,
      cacheLookup cache permalink = some cell → now < cell.Expires →
      GetTrack resolve now ttl cache permalink = (.ok cell.Value, cache, false)) ∧
    (∀ resolve now ttl cache permalink,
      (GetTrack resolve now ttl cache permalink).2.2 = false →
      ∃ cell, cacheLookup cache permalink = some cell ∧ now < cell.Expires ∧
        (GetTrack resolve now ttl cache permalink).1 = .ok cell.Value) ∧
    (∀ resolve fetch now ttl cache permalink cell,
      cacheLookup cache permalink = some cell → now < cell.Expires →
      GetPlaylist resolve fetch now ttl cache permalink = (.ok cell.Value, cache, false)) ∧
    (∀ resolve fetch now ttl cache permalink,
      (GetPlaylist resolve fetch now ttl cache permalink).2.2 = false →
      ∃ cell, cacheLookup cache permalink = some cell ∧ now < cell.Expires ∧
        (GetPlaylist resolve fetch now ttl cache permalink).1 = .ok cell.Value) := by
  refine ⟨getUser_hit, ?_, getTrack_hit, ?_, getPlaylist_hit, ?_⟩
  · intro resolve now ttl cache permalink h
    cases hc : hitCell cache now permalink with
    | some cell =>
      have h2 := (hitCell_eq_some cache now permalink cell).mp hc
      exact ⟨cell, h2.1, h2.2, by rw [GetUser, hc]⟩
    | none =>
      rw [getUser_missFlag resolve now ttl cache permalink hc] at h
      exact Bool.noConfusion h
  · intro resolve now ttl cache permalink h
    cases hc : hitCell cache now permalink with
    | some cell =>
      have h2 := (hitCell_eq_some cache now permalink cell).mp hc
      exact ⟨cell, h2.1, h2.2, by rw [GetTrack, hc]⟩
    | none =>
      rw [getTrack_missFlag resolve now ttl cache permalink hc] at h
      exact Bool.noConfusion h
  · intro resolve fetch now ttl cache permalink h
    cases hc : hitCell cache now permalink with
    | some cell =>
      have h2 := (hitCell_eq_some cache now permalink cell).mp hc
      exact ⟨cell, h2.1, h2.2, by rw [GetPlaylist, hc]⟩
    | none =>
      rw [getPlaylist_missFlag resolve fetch now ttl cache permalink hc] at h
      exact Bool.noConfusion h

/-- C8: for each entity fetcher, when the resolved entity's kind field
differs from the expected kind, the operation returns `ErrKindNotCorrect`
(it does not return the entity as a success) and the cache is left exactly
as it was — no cache write. -/
theorem claim_C8 :
    (∀ resolve now ttl cache permalink (u : User),
      hitCell cache now permalink = none → resolve permalink = .ok u → u.Kind ≠ "user" →
      GetUser resolve now ttl cache permalink = (.error .kindNotCorrect, cache, true)) ∧
    (∀ resolve now ttl cache permalink (u : Track),
      hitCell cache now permalink = none → resolve permalink = .ok u → u.Kind ≠ "track" →
      GetTrack resolve now ttl cache permalink = (.error .kindNotCorrect, cache, true)) ∧
    (∀ resolve fetch now ttl cache permalink (u : Playlist),
      hitCell cache now permalink = none → resolve permalink = .ok u → u.Kind ≠ "playlist" →
      GetPlaylist resolve fetch now ttl cache permalink =
        (.error .kindNotCorrect, cache, true)) := by
  refine ⟨?_, ?_, ?_⟩
  · intro resolve now ttl cache permalink u hmiss hres hk
    rw [GetUser, hmiss, hres]
    simp [hk]
  · intro resolve now ttl cache permalink u hmiss hres hk
    rw [GetTrack, hmiss, hres]
    simp [hk]
  · intro resolve fetch now ttl cache permalink u hmiss hres hk
    rw [GetPlaylist, hmiss, hres]
    simp [hk]

/-- C9: on every failure path of `GetUser`, `GetTrack` and `GetPlaylist`
(resolve failure of any sort — token discovery, transport, status, decode —
kind mismatch, or playlist reconciliation failure), the entity cache is
returned unmodified: the write happens only on the all-steps-succeed path. -/
theorem claim_C9 :
    (∀ resolve now ttl cache permalink (e : ScErr),
      (GetUser resolve now ttl cache permalink).1 = .error e →
      (GetUser resolve now ttl cache permalink).2.1 = cache) ∧
    (∀ resolve now ttl cache permalink (e : ScErr),
      (GetTrack resolve now ttl cache permalink).1 = .error e →
      (GetTrack resolve now ttl cache permalink).2.1 = cache) ∧
    (∀ resolve fetch now ttl cache permalink (e : ScErr),
      (GetPlaylist resolve fetch now ttl cache permalink).1 = .error e →
      (GetPlaylist resolve fetch now ttl cache permalink).2.1 = cache) := by
  refine ⟨?_, ?_, ?_⟩
  · intro resolve now ttl cache permalink e h
    rw [GetUser] at h ⊢
    cases hc : hitCell cache now permalink with
    | some cell => rfl
    | none =>
      rw [hc] at h
      cases hr : resolve permalink with
      | error e2 => rfl
      | ok u =>
        rw [hr] at h
        by_cases hk : u.Kind ≠ "user"
        · simp [hk]
        · simp [hk] at h
  · intro resolve now ttl cache permalink e h
    rw [GetTrack] at h ⊢
    cases hc : hitCell cache now permalink with
    | some cell => rfl
    | none =>
      rw [hc] at h
      cases hr : resolve permalink with
      | error e2 => rfl
      | ok u =>
        rw [hr] at h
        by_cases hk : u.Kind ≠ "track"
        · simp [hk]
        · simp [hk] at h
  · intro resolve fetch now ttl cache permalink e h
    rw [GetPlaylist] at h ⊢
    cases hc : hitCell cache now permalink with
    | some cell => rfl
    | none =>
      rw [hc] at h
      cases hr : resolve permalink with
      | error e2 => rfl
      | ok u =>
        rw [hr] at h
        by_cases hk : u.Kind ≠ "playlist"
        · simp [hk]
        · cases hf : playlistFix fetch true u with
          | error e2 => simp [hk, hf]
          | ok u2 => simp [hk, hf] at h

/-- Concrete cached entities and caches for the C7 witness. -/
def w7User : User := ⟨"7", "a.jpg", "user"⟩

def w7Track : Track := ⟨"5", 5, "song", "b.jpg", "track"⟩

def w7Playlist : Playlist := ⟨"c.jpg", [], "", "playlist"⟩

def w7UCache : List (String × CachedCell User) := [("alice", ⟨w7User, 100⟩)]

def w7TCache : List (String × CachedCell Track) := [("t1", ⟨w7Track, 100⟩)]

def w7PCache : List (String × CachedCell Playlist) := [("p1", ⟨w7Playlist, 100⟩)]

/-- C7 witness: unexpired hits at `now = 10` served from cache with no
upstream call, for all three fetchers. -/
theorem claim_C7_witness :
    (GetUser (fun _ => .error .transport) 10 60 w7UCache "alice" =
      (.ok w7User, w7UCache, false)) ∧
    (GetTrack (fun _ => .error .transport) 10 60 w7TCache "t1" =
      (.ok w7Track, w7TCache, false)) ∧
    (GetPlaylist (fun _ => .error .transport) (fun _ => .error .transport) 10 60 w7PCache "p1" =
      (.ok w7Playlist, w7PCache, false)) ∧
    (∃ cell, cacheLookup w7UCache "alice" = some cell ∧ 10 < cell.Expires ∧
      (GetUser (fun _ => .error .transport) 10 60 w7UCache "alice").1 = .ok cell.Value) ∧
    (∃ cell, cacheLookup w7TCache "t1" = some cell ∧ 10 < cell.Expires ∧
      (GetTrack (fun _ => .error .transport) 10 60 w7TCache "t1").1 = .ok cell.Value) ∧
    (∃ cell, cacheLookup w7PCache "p1" = some cell ∧ 10 < cell.Expires ∧
      (GetPlaylist (fun _ => .error .transport) (fun _ => .error .transport) 10 60 w7PCache
          "p1").1 = .ok cell.Value) :=
  ⟨claim_C7.1 _ 10 60 w7UCache "alice" ⟨w7User, 100⟩ rfl (by decide),
   claim_C7.2.2.1 _ 10 60 w7TCache "t1" ⟨w7Track, 100⟩ rfl (by decide),
   claim_C7.2.2.2.2.1 _ _ 10 60 w7PCache "p1" ⟨w7Playlist, 100⟩ rfl (by decide),
   claim_C7.2.1 _ 10 60 w7UCache "alice" rfl,
   claim_C7.2.2.2.1 _ 10 60 w7TCache "t1" rfl,
   claim_C7.2.2.2.2.2 _ _ 10 60 w7PCache "p1" rfl⟩

/-- C8 witness: a `kind: "playlist"` entity through `GetUser`, a
`kind: "user"` entity through `GetTrack`, and a `kind: "track"` entity
through `GetPlaylist`, all on an empty cache. -/
theorem claim_C8_witness :
    (GetUser (fun _ => .ok ⟨"9", "", "playlist"⟩) 0 60 [] "x" =
      (.error .kindNotCorrect, [], true)) ∧
    (GetTrack (fun _ => .ok ⟨"9", 9, "t", "", "user"⟩) 0 60 [] "x" =
      (.error .kindNotCorrect, [], true)) ∧
    (GetPlaylist (fun _ => .ok ⟨"", [], "", "track"⟩) (fun _ => .ok []) 0 60 [] "x" =
      (.error .kindNotCorrect, [], true)) :=
  ⟨claim_C8.1 _ 0 60 [] "x" ⟨"9", "", "playlist"⟩ rfl rfl (by decide),
   claim_C8.2.1 _ 0 60 [] "x" ⟨"9", 9, "t", "", "user"⟩ rfl rfl (by decide),
   claim_C8.2.2 _ _ 0 60 [] "x" ⟨"", [], "", "track"⟩ rfl rfl (by decide)⟩

/-- C9 witness: a transport-failing resolve leaves each cache unmodified. -/
theorem claim_C9_witness :
    ((GetUser (fun _ => .error .transport) 0 60 [] "x").1 = .error .transport ∧
      (GetUser (fun _ => .error .transport) 0 60 [] "x").2.1 = []) ∧
    ((GetTrack (fun _ => .error .transport) 0 60 [] "x").1 = .error .transport ∧
      (GetTrack (fun _ => .error .transport) 0 60 [] "x").2.1 = []) ∧
    ((GetPlaylist (fun _ => .error .transport) (fun _ => .ok []) 0 60 [] "x").1 =
        .error .transport ∧
      (GetPlaylist (fun _ => .error .transport) (fun _ => .ok []) 0 60 [] "x").2.1 = []) :=
  ⟨⟨rfl, claim_C9.1 _ 0 60 [] "x" .transport rfl⟩,
   ⟨rfl, claim_C9.2.1 _ 0 60 [] "x" .transport rfl⟩,
   ⟨rfl, claim_C9.2.2 _ _ 0 60 [] "x" .transport rfl⟩⟩
